import Mathlib

/-!
Shallow embedding of the 2D quadrant bit algebra of p4est (`src/p4est_bits.h`).

The repository ships only the header `p4est_bits.h`, which declares the
operations and documents their contracts; the implementation file
`p4est_bits.c` is not part of `src/`.  Every operation below is therefore
modelled from the natural-language specification (`spec.md`) and from the
header's documentation comments, as faithfully as their words allow.

Conventions of the embedding:
* coordinates are unbounded integers (`Int`); the C type is a 32-bit signed
  integer, but all specified operations stay well inside that range, so no
  wrap-around modelling is needed;
* `level` is a natural number; validity bounds it by `P4EST_MAXLEVEL`;
* C functions that fill a caller-supplied destination quadrant become Lean
  functions taking the old destination value and returning the new one, so
  that frame conditions on the piggyback fields are expressible;
* C `bool` predicates become decidable `Prop`s;
* `uint64_t` linear ids become `Nat` (ids are below `4 ^ P4EST_MAXLEVEL`,
  i.e. below `2 ^ 60`, so the C code never overflows and the `Nat` model
  agrees with the 64-bit one).
-/

/-- Modelled from the spec: the maximum refinement depth `P4EST_MAXLEVEL`
("a fixed constant, e.g. 30", matching 32-bit coordinates and the 30-bit
hash range documented in the header). -/
def P4EST_MAXLEVEL : Nat := 30

/-- Modelled from the spec: the quadrant record `p4est_quadrant_t`.
Geometric identity is `x`, `y`, `level`; `which_tree` (owning-tree index)
and `user_data` (opaque user tag) are the piggyback fields, never examined
by the geometric operations. -/
structure p4est_quadrant_t where
  x : Int
  y : Int
  level : Nat
  which_tree : Int
  user_data : Nat
deriving DecidableEq

/-- Modelled from the spec: the side length `2 ^ (MAXLEVEL - l)` of a cell
of level `l`, as an integer (`P4EST_QUADRANT_LEN` in the C sources). -/
def qlen (l : Nat) : Int := 2 ^ (P4EST_MAXLEVEL - l)

/-- Modelled from the spec: truncation of a coordinate to the resolution of
level `l` — all address bits below `2 ^ (MAXLEVEL - l)` are cleared. -/
def qtrunc (l : Nat) (x : Int) : Int := qlen l * (x / qlen l)

/-- Modelled from the spec: bit interleaving of the low `n` bits of two
coordinates into one Morton key; `x` occupies the even bit positions and
`y` the odd ones, so each two-bit group is a z-order child id. -/
def interleave : Nat → Nat → Nat → Nat
  | 0, _, _ => 0
  | n + 1, x, y => x % 2 + 2 * (y % 2) + 4 * interleave n (x / 2) (y / 2)

/-- Modelled from the spec: extraction of the x-coordinate bits (the even
bit positions) from the low `2n` bits of a Morton key. -/
def deinterleaveX : Nat → Nat → Nat
  | 0, _ => 0
  | n + 1, m => m % 2 + 2 * deinterleaveX n (m / 4)

/-- Modelled from the spec: extraction of the y-coordinate bits (the odd
bit positions) from the low `2n` bits of a Morton key. -/
def deinterleaveY : Nat → Nat → Nat
  | 0, _ => 0
  | n + 1, m => m / 2 % 2 + 2 * deinterleaveY n (m / 4)

/-- Modelled from the spec: the full-depth Morton key of a quadrant's
coordinates (interleaving all `MAXLEVEL` bits of each coordinate). -/
def morton_key (q : p4est_quadrant_t) : Nat :=
  interleave P4EST_MAXLEVEL q.x.toNat q.y.toNat

/-- Modelled from the spec (implementation not in `src/`):
`p4est_quadrant_is_inside_root` — every coordinate lies in
`[0, 2^MAXLEVEL)`. -/
def p4est_quadrant_is_inside_root (q : p4est_quadrant_t) : Prop :=
  0 ≤ q.x ∧ q.x < 2 ^ P4EST_MAXLEVEL ∧ 0 ≤ q.y ∧ q.y < 2 ^ P4EST_MAXLEVEL

instance (q : p4est_quadrant_t) : Decidable (p4est_quadrant_is_inside_root q) := by
  unfold p4est_quadrant_is_inside_root; infer_instance

/-- Modelled from the spec (implementation not in `src/`):
`p4est_quadrant_is_inside_3x3` — every coordinate lies in
`[-2^MAXLEVEL, 2 * 2^MAXLEVEL)`. -/
def p4est_quadrant_is_inside_3x3 (q : p4est_quadrant_t) : Prop :=
  -(2 ^ P4EST_MAXLEVEL) ≤ q.x ∧ q.x < 2 * 2 ^ P4EST_MAXLEVEL ∧
  -(2 ^ P4EST_MAXLEVEL) ≤ q.y ∧ q.y < 2 * 2 ^ P4EST_MAXLEVEL

instance (q : p4est_quadrant_t) : Decidable (p4est_quadrant_is_inside_3x3 q) := by
  unfold p4est_quadrant_is_inside_3x3; infer_instance

/-- Modelled from the spec (implementation not in `src/`):
`p4est_quadrant_is_valid` — inside the unit tree, level in range, and both
coordinates aligned to the cell size of the quadrant's level. -/
def p4est_quadrant_is_valid (q : p4est_quadrant_t) : Prop :=
  p4est_quadrant_is_inside_root q ∧ q.level ≤ P4EST_MAXLEVEL ∧
  q.x % qlen q.level = 0 ∧ q.y % qlen q.level = 0

instance (q : p4est_quadrant_t) : Decidable (p4est_quadrant_is_valid q) := by
  unfold p4est_quadrant_is_valid; infer_instance

/-- Modelled from the spec (implementation not in `src/`):
`p4est_quadrant_is_extended` — the same alignment and level constraints as
validity, but inside the 3x3 box around the root tree. -/
def p4est_quadrant_is_extended (q : p4est_quadrant_t) : Prop :=
  p4est_quadrant_is_inside_3x3 q ∧ q.level ≤ P4EST_MAXLEVEL ∧
  q.x % qlen q.level = 0 ∧ q.y % qlen q.level = 0

instance (q : p4est_quadrant_t) : Decidable (p4est_quadrant_is_extended q) := by
  unfold p4est_quadrant_is_extended; infer_instance

/-- Modelled from the spec (implementation not in `src/`):
`p4est_quadrant_is_equal` — same level and identical coordinates, the
piggyback fields being ignored. -/
def p4est_quadrant_is_equal (v1 v2 : p4est_quadrant_t) : Prop :=
  v1.level = v2.level ∧ v1.x = v2.x ∧ v1.y = v2.y

instance (v1 v2 : p4est_quadrant_t) : Decidable (p4est_quadrant_is_equal v1 v2) := by
  unfold p4est_quadrant_is_equal; infer_instance

/-- Modelled from the spec (implementation not in `src/`):
`p4est_quadrant_compare` — Morton order on the interleaved coordinate bits;
if the interleaved keys agree, the shallower quadrant sorts first.
Returns a negative, zero or positive integer. -/
def p4est_quadrant_compare (v1 v2 : p4est_quadrant_t) : Int :=
  if morton_key v1 < morton_key v2 then -1
  else if morton_key v2 < morton_key v1 then 1
  else (v1.level : Int) - (v2.level : Int)

/-- Modelled from the spec (implementation not in `src/`):
`p4est_quadrant_hash` — a deterministic 30-bit value obtained by bit-mixing
the coordinates and the level. -/
def p4est_quadrant_hash (v : p4est_quadrant_t) : Nat :=
  (morton_key v ^^^ v.level) % 2 ^ 30

/-- Modelled from the spec (implementation not in `src/`):
`p4est_quadrant_child_id` — the two bits of the coordinates at bit position
`MAXLEVEL - level`, assembled into an id in `[0, 4)` (x contributes bit 0,
y contributes bit 1). -/
def p4est_quadrant_child_id (q : p4est_quadrant_t) : Nat :=
  (q.x / qlen q.level % 2).toNat + 2 * (q.y / qlen q.level % 2).toNat

/-- Modelled from the spec (implementation not in `src/`):
`p4est_quadrant_parent` — fills the destination `r` with the quadrant of
level `q.level - 1` whose coordinates are `q`'s truncated to that level;
the piggyback fields of `r` are untouched (so documented in the header). -/
def p4est_quadrant_parent (q r : p4est_quadrant_t) : p4est_quadrant_t :=
  { r with
    x := qtrunc (q.level - 1) q.x
    y := qtrunc (q.level - 1) q.y
    level := q.level - 1 }

/-- Modelled from the spec (implementation not in `src/`):
`p4est_quadrant_sibling` — fills the destination `r` with the quadrant at
`q`'s level sharing `q`'s parent and having child id `sibling_id`. -/
def p4est_quadrant_sibling (q r : p4est_quadrant_t) (sibling_id : Nat) :
    p4est_quadrant_t :=
  { r with
    x := qtrunc (q.level - 1) q.x + (if sibling_id % 2 = 1 then qlen q.level else 0)
    y := qtrunc (q.level - 1) q.y + (if sibling_id / 2 % 2 = 1 then qlen q.level else 0)
    level := q.level }

/-- Modelled from the spec (implementation not in `src/`):
`p4est_quadrant_children` — fills the four destinations with the children
of `q` in canonical child-id order 0..3, at level `q.level + 1`. -/
def p4est_quadrant_children (q c0 c1 c2 c3 : p4est_quadrant_t) :
    p4est_quadrant_t × p4est_quadrant_t × p4est_quadrant_t × p4est_quadrant_t :=
  ({ c0 with x := q.x, y := q.y, level := q.level + 1 },
   { c1 with x := q.x + qlen (q.level + 1), y := q.y, level := q.level + 1 },
   { c2 with x := q.x, y := q.y + qlen (q.level + 1), level := q.level + 1 },
   { c3 with
     x := q.x + qlen (q.level + 1)
     y := q.y + qlen (q.level + 1)
     level := q.level + 1 })

/-- Modelled from the spec (implementation not in `src/`):
`p4est_quadrant_first_descendent` — the descendant of `q` on `level`
obtained by filling the remaining address bits with zeros. -/
def p4est_quadrant_first_descendent (q fd : p4est_quadrant_t) (level : Nat) :
    p4est_quadrant_t :=
  { fd with x := q.x, y := q.y, level := level }

/-- Modelled from the spec (implementation not in `src/`):
`p4est_quadrant_last_descendent` — the descendant of `q` on `level`
obtained by filling the remaining address bits with ones. -/
def p4est_quadrant_last_descendent (q ld : p4est_quadrant_t) (level : Nat) :
    p4est_quadrant_t :=
  { ld with
    x := q.x + (qlen q.level - qlen level)
    y := q.y + (qlen q.level - qlen level)
    level := level }

/-- Modelled from the spec (implementation not in `src/`): the level of the
nearest common ancestor — the greatest level not above either input level
at which the truncated coordinates of the two quadrants coincide. -/
def nca_level (q1 q2 : p4est_quadrant_t) : Nat :=
  Nat.findGreatest
    (fun L => qtrunc L q1.x = qtrunc L q2.x ∧ qtrunc L q1.y = qtrunc L q2.y)
    (min q1.level q2.level)

/-- Modelled from the spec (implementation not in `src/`):
`p4est_nearest_common_ancestor` — fills `r` with the minimal-level quadrant
that is an ancestor of (or equal to) both inputs: the common coordinate
prefix at the nearest common ancestor level.  The piggyback fields of `r`
are untouched (so documented in the header). -/
def p4est_nearest_common_ancestor (q1 q2 r : p4est_quadrant_t) :
    p4est_quadrant_t :=
  { r with
    x := qtrunc (nca_level q1 q2) q1.x
    y := qtrunc (nca_level q1 q2) q1.y
    level := nca_level q1 q2 }

/-- Modelled from the spec (implementation not in `src/`):
`p4est_quadrant_linear_id` — the position of the quadrant in the uniform
grid of `level`: the top `level` bit groups of the interleaved coordinates,
ignoring bits below the resolution of `level`. -/
def p4est_quadrant_linear_id (quadrant : p4est_quadrant_t) (level : Nat) : Nat :=
  interleave level (quadrant.x.toNat / 2 ^ (P4EST_MAXLEVEL - level))
    (quadrant.y.toNat / 2 ^ (P4EST_MAXLEVEL - level))

/-- Modelled from the spec (implementation not in `src/`):
`p4est_quadrant_set_morton` — sets the destination's level to `level` and
its coordinates to the unique address whose linear id at `level` is `id`;
the piggyback fields are untouched (so documented in the header). -/
def p4est_quadrant_set_morton (quadrant : p4est_quadrant_t) (level : Nat)
    (id : Nat) : p4est_quadrant_t :=
  { quadrant with
    x := (deinterleaveX level id : Int) * qlen level
    y := (deinterleaveY level id : Int) * qlen level
    level := level }

/-- Modelled from the spec (implementation not in `src/`):
`p4est_quadrant_is_sibling`, fast form — index arithmetic on the coordinate
words: equal levels at least 1, equal coordinates above the child bit, and
not the very same cell. -/
def p4est_quadrant_is_sibling (q1 q2 : p4est_quadrant_t) : Prop :=
  1 ≤ q1.level ∧ q1.level = q2.level ∧
  q1.x / qlen (q1.level - 1) = q2.x / qlen (q1.level - 1) ∧
  q1.y / qlen (q1.level - 1) = q2.y / qlen (q1.level - 1) ∧
  ¬(q1.x = q2.x ∧ q1.y = q2.y)

instance (q1 q2 : p4est_quadrant_t) : Decidable (p4est_quadrant_is_sibling q1 q2) := by
  unfold p4est_quadrant_is_sibling; infer_instance

/-- Modelled from the spec (implementation not in `src/`):
`p4est_quadrant_is_sibling_D`, descriptive form — unequal quadrants of the
same level at least 1 whose constructed parents are equal. -/
def p4est_quadrant_is_sibling_D (q1 q2 : p4est_quadrant_t) : Prop :=
  ¬p4est_quadrant_is_equal q1 q2 ∧ q1.level = q2.level ∧ 1 ≤ q1.level ∧
  p4est_quadrant_is_equal (p4est_quadrant_parent q1 q1)
    (p4est_quadrant_parent q2 q2)

instance (q1 q2 : p4est_quadrant_t) : Decidable (p4est_quadrant_is_sibling_D q1 q2) := by
  unfold p4est_quadrant_is_sibling_D; infer_instance

/-- Modelled from the spec (implementation not in `src/`):
`p4est_quadrant_is_parent` — `r` is one level deeper than `q` and truncating
`r`'s coordinates to `q`'s level gives `q`'s coordinates. -/
def p4est_quadrant_is_parent (q r : p4est_quadrant_t) : Prop :=
  r.level = q.level + 1 ∧ q.x = qtrunc q.level r.x ∧ q.y = qtrunc q.level r.y

instance (q r : p4est_quadrant_t) : Decidable (p4est_quadrant_is_parent q r) := by
  unfold p4est_quadrant_is_parent; infer_instance

/-- Modelled from the spec (implementation not in `src/`):
`p4est_quadrant_is_parent_D`, descriptive form — `q` equals the constructed
parent of `r`. -/
def p4est_quadrant_is_parent_D (q r : p4est_quadrant_t) : Prop :=
  1 ≤ r.level ∧ p4est_quadrant_is_equal q (p4est_quadrant_parent r r)

instance (q r : p4est_quadrant_t) : Decidable (p4est_quadrant_is_parent_D q r) := by
  unfold p4est_quadrant_is_parent_D; infer_instance

/-- Modelled from the spec (implementation not in `src/`):
`p4est_quadrant_is_ancestor`, fast form — strictly shallower level and equal
coordinate words above the resolution of `q`'s level (a shift comparison). -/
def p4est_quadrant_is_ancestor (q r : p4est_quadrant_t) : Prop :=
  q.level < r.level ∧
  q.x / qlen q.level = r.x / qlen q.level ∧
  q.y / qlen q.level = r.y / qlen q.level

instance (q r : p4est_quadrant_t) : Decidable (p4est_quadrant_is_ancestor q r) := by
  unfold p4est_quadrant_is_ancestor; infer_instance

/-- Modelled from the spec (implementation not in `src/`):
`p4est_quadrant_is_ancestor_D`, descriptive form — `q` is unequal to `r`,
strictly shallower, and truncating `r` to `q`'s level reproduces `q`. -/
def p4est_quadrant_is_ancestor_D (q r : p4est_quadrant_t) : Prop :=
  ¬p4est_quadrant_is_equal q r ∧ q.level < r.level ∧
  q.x = qtrunc q.level r.x ∧ q.y = qtrunc q.level r.y

instance (q r : p4est_quadrant_t) : Decidable (p4est_quadrant_is_ancestor_D q r) := by
  unfold p4est_quadrant_is_ancestor_D; infer_instance

/-- Modelled from the spec (implementation not in `src/`):
`p4est_quadrant_is_next`, fast form — Morton-key arithmetic: the key of `r`
is the key of `q` plus the number `4 ^ (MAXLEVEL - q.level)` of finest-level
cells covered by `q`. -/
def p4est_quadrant_is_next (q r : p4est_quadrant_t) : Prop :=
  morton_key q + 4 ^ (P4EST_MAXLEVEL - q.level) = morton_key r

instance (q r : p4est_quadrant_t) : Decidable (p4est_quadrant_is_next q r) := by
  unfold p4est_quadrant_is_next; infer_instance

/-- Modelled from the spec (implementation not in `src/`):
`p4est_quadrant_is_next_D`, descriptive form — the last descendant of `q`
at the deepest level is adjacent (linear id plus one) to the first
descendant of `r` at that level. -/
def p4est_quadrant_is_next_D (q r : p4est_quadrant_t) : Prop :=
  p4est_quadrant_linear_id
      (p4est_quadrant_last_descendent q q P4EST_MAXLEVEL) P4EST_MAXLEVEL + 1 =
  p4est_quadrant_linear_id
      (p4est_quadrant_first_descendent r r P4EST_MAXLEVEL) P4EST_MAXLEVEL

instance (q r : p4est_quadrant_t) : Decidable (p4est_quadrant_is_next_D q r) := by
  unfold p4est_quadrant_is_next_D; infer_instance

/-- Modelled from the spec (implementation not in `src/`):
`p4est_quadrant_is_family` — all four quadrants are valid, of one level at
least 1, share a parent, and quadrant number `N` holds child id `N`. -/
def p4est_quadrant_is_family (q0 q1 q2 q3 : p4est_quadrant_t) : Prop :=
  p4est_quadrant_is_valid q0 ∧ p4est_quadrant_is_valid q1 ∧
  p4est_quadrant_is_valid q2 ∧ p4est_quadrant_is_valid q3 ∧
  1 ≤ q0.level ∧ q1.level = q0.level ∧ q2.level = q0.level ∧ q3.level = q0.level ∧
  qtrunc (q0.level - 1) q1.x = qtrunc (q0.level - 1) q0.x ∧
  qtrunc (q0.level - 1) q1.y = qtrunc (q0.level - 1) q0.y ∧
  qtrunc (q0.level - 1) q2.x = qtrunc (q0.level - 1) q0.x ∧
  qtrunc (q0.level - 1) q2.y = qtrunc (q0.level - 1) q0.y ∧
  qtrunc (q0.level - 1) q3.x = qtrunc (q0.level - 1) q0.x ∧
  qtrunc (q0.level - 1) q3.y = qtrunc (q0.level - 1) q0.y ∧
  p4est_quadrant_child_id q0 = 0 ∧ p4est_quadrant_child_id q1 = 1 ∧
  p4est_quadrant_child_id q2 = 2 ∧ p4est_quadrant_child_id q3 = 3

instance (q0 q1 q2 q3 : p4est_quadrant_t) :
    Decidable (p4est_quadrant_is_family q0 q1 q2 q3) := by
  unfold p4est_quadrant_is_family; infer_instance

/-! ## Arithmetic groundwork -/

theorem interleave_zero (n : Nat) : interleave n 0 0 = 0 := by
  induction n with
  | zero => rfl
  | succ n ih => simp [interleave, ih]

theorem deinterleaveX_interleave (n : Nat) :
    ∀ a b : Nat, deinterleaveX n (interleave n a b) = a % 2 ^ n := by
  induction n with
  | zero => intro a b; simp [deinterleaveX, Nat.mod_one]
  | succ n ih =>
      intro a b
      have hlow : a / 2 % 2 ^ n = a % 2 ^ (n + 1) / 2 := by
        rw [Nat.div_mod_eq_mod_mul_div]
        congr 1
        rw [pow_succ, mul_comm]
      have hbit : a % 2 = a % 2 ^ (n + 1) % 2 :=
        (Nat.mod_mod_of_dvd a (dvd_pow_self 2 n.succ_ne_zero)).symm
      simp only [interleave, deinterleaveX]
      have h4 : (a % 2 + 2 * (b % 2) + 4 * interleave n (a / 2) (b / 2)) / 4 =
          interleave n (a / 2) (b / 2) := by omega
      have h2 : (a % 2 + 2 * (b % 2) + 4 * interleave n (a / 2) (b / 2)) % 2 =
          a % 2 := by omega
      rw [h4, h2, ih (a / 2) (b / 2)]
      omega

theorem deinterleaveY_interleave (n : Nat) :
    ∀ a b : Nat, deinterleaveY n (interleave n a b) = b % 2 ^ n := by
  induction n with
  | zero => intro a b; simp [deinterleaveY, Nat.mod_one]
  | succ n ih =>
      intro a b
      have hlow : b / 2 % 2 ^ n = b % 2 ^ (n + 1) / 2 := by
        rw [Nat.div_mod_eq_mod_mul_div]
        congr 1
        rw [pow_succ, mul_comm]
      have hbit : b % 2 = b % 2 ^ (n + 1) % 2 :=
        (Nat.mod_mod_of_dvd b (dvd_pow_self 2 n.succ_ne_zero)).symm
      simp only [interleave, deinterleaveY]
      have h4 : (a % 2 + 2 * (b % 2) + 4 * interleave n (a / 2) (b / 2)) / 4 =
          interleave n (a / 2) (b / 2) := by omega
      have h2 : (a % 2 + 2 * (b % 2) + 4 * interleave n (a / 2) (b / 2)) / 2 % 2 =
          b % 2 := by omega
      rw [h4, h2, ih (a / 2) (b / 2)]
      omega

theorem interleave_deinterleave (n : Nat) :
    ∀ m : Nat, interleave n (deinterleaveX n m) (deinterleaveY n m) = m % 4 ^ n := by
  induction n with
  | zero => intro m; simp [interleave, deinterleaveX, deinterleaveY, Nat.mod_one]
  | succ n ih =>
      intro m
      have hlow : m / 4 % 4 ^ n = m % 4 ^ (n + 1) / 4 := by
        rw [Nat.div_mod_eq_mod_mul_div]
        congr 1
        rw [pow_succ, mul_comm]
      have hbit : m % 4 = m % 4 ^ (n + 1) % 4 :=
        (Nat.mod_mod_of_dvd m (dvd_pow_self 4 n.succ_ne_zero)).symm
      simp only [interleave, deinterleaveX, deinterleaveY]
      have e1 : (m % 2 + 2 * deinterleaveX n (m / 4)) % 2 = m % 2 := by omega
      have e2 : (m % 2 + 2 * deinterleaveX n (m / 4)) / 2 =
          deinterleaveX n (m / 4) := by omega
      have e3 : (m / 2 % 2 + 2 * deinterleaveY n (m / 4)) % 2 = m / 2 % 2 := by
        omega
      have e4 : (m / 2 % 2 + 2 * deinterleaveY n (m / 4)) / 2 =
          deinterleaveY n (m / 4) := by omega
      rw [e1, e2, e3, e4, ih (m / 4)]
      omega

theorem interleave_add (k : Nat) :
    ∀ n a b c d : Nat, k ≤ n → 2 ^ k ∣ a → 2 ^ k ∣ b → c < 2 ^ k → d < 2 ^ k →
      interleave n (a + c) (b + d) = interleave n a b + interleave n c d := by
  induction k with
  | zero =>
      intro n a b c d _ _ _ hc hd
      interval_cases c
      interval_cases d
      simp [interleave_zero]
  | succ k ih =>
      intro n a b c d hkn ha hb hc hd
      obtain ⟨n', rfl⟩ : ∃ n', n = n' + 1 := ⟨n - 1, by omega⟩
      have h2a : 2 ∣ a := dvd_trans (dvd_pow_self 2 k.succ_ne_zero) ha
      have h2b : 2 ∣ b := dvd_trans (dvd_pow_self 2 k.succ_ne_zero) hb
      obtain ⟨ta, rfl⟩ := ha
      obtain ⟨tb, rfl⟩ := hb
      have hda : 2 ^ (k + 1) * ta / 2 = 2 ^ k * ta := by
        rw [pow_succ, mul_right_comm]
        exact Nat.mul_div_cancel _ two_pos
      have hdb : 2 ^ (k + 1) * tb / 2 = 2 ^ k * tb := by
        rw [pow_succ, mul_right_comm]
        exact Nat.mul_div_cancel _ two_pos
      have hpow : 2 ^ (k + 1) = 2 * 2 ^ k := by rw [pow_succ]; ring
      simp only [interleave]
      have g1 : (2 ^ (k + 1) * ta + c) % 2 = c % 2 := by omega
      have g2 : (2 ^ (k + 1) * tb + d) % 2 = d % 2 := by omega
      have g3 : (2 ^ (k + 1) * ta + c) / 2 = 2 ^ k * ta + c / 2 := by omega
      have g4 : (2 ^ (k + 1) * tb + d) / 2 = 2 ^ k * tb + d / 2 := by omega
      have g5 : 2 ^ (k + 1) * ta % 2 = 0 := by omega
      have g6 : 2 ^ (k + 1) * tb % 2 = 0 := by omega
      have hrec := ih n' (2 ^ k * ta) (2 ^ k * tb) (c / 2) (d / 2) (by omega)
        (Dvd.intro ta rfl) (Dvd.intro tb rfl) (by omega) (by omega)
      rw [g1, g2, g3, g4, g5, g6, hda, hdb, hrec]
      omega

theorem interleave_ones (k : Nat) :
    ∀ n : Nat, k ≤ n → interleave n (2 ^ k - 1) (2 ^ k - 1) = 4 ^ k - 1 := by
  induction k with
  | zero => intro n _; simpa using interleave_zero n
  | succ k ih =>
      intro n hkn
      obtain ⟨n', rfl⟩ : ∃ n', n = n' + 1 := ⟨n - 1, by omega⟩
      have hpow : 2 ^ (k + 1) = 2 * 2 ^ k := by rw [pow_succ]; ring
      have hone : 1 ≤ 2 ^ k := Nat.one_le_two_pow
      have g1 : (2 ^ (k + 1) - 1) % 2 = 1 := by omega
      have g2 : (2 ^ (k + 1) - 1) / 2 = 2 ^ k - 1 := by omega
      simp only [interleave]
      rw [g1, g2, ih n' (by omega)]
      have h4 : 4 ^ (k + 1) = 4 * 4 ^ k := by rw [pow_succ]; ring
      have h41 : 1 ≤ 4 ^ k := Nat.one_le_pow _ _ (by omega)
      omega

theorem qlen_pos (l : Nat) : 0 < qlen l := by
  unfold qlen; positivity

theorem qlen_cast (l : Nat) : qlen l = ((2 ^ (P4EST_MAXLEVEL - l) : Nat) : Int) := by
  unfold qlen; push_cast; ring

theorem qlen_pred (l : Nat) (h1 : 1 ≤ l) (h2 : l ≤ P4EST_MAXLEVEL) :
    qlen (l - 1) = 2 * qlen l := by
  unfold qlen
  have h : P4EST_MAXLEVEL - (l - 1) = (P4EST_MAXLEVEL - l) + 1 := by omega
  rw [h, pow_succ]; ring

theorem qtrunc_eq_sub_emod (l : Nat) (x : Int) :
    qtrunc l x = x - x % qlen l := by
  unfold qtrunc
  have h := Int.ediv_add_emod x (qlen l)
  linarith

theorem qtrunc_of_emod_zero (l : Nat) (x : Int) (h : x % qlen l = 0) :
    qtrunc l x = x := by
  rw [qtrunc_eq_sub_emod, h]; ring

theorem qtrunc_eq_iff (l : Nat) (x y : Int) :
    qtrunc l x = qtrunc l y ↔ x / qlen l = y / qlen l := by
  unfold qtrunc
  constructor
  · exact fun h => mul_left_cancel₀ (ne_of_gt (qlen_pos l)) h
  · exact fun h => by rw [h]

/-! ## Claim C2: compare is a strict total order -/

/-- C2: `compare` is a strict total order on valid quadrants:
`compare(q,q) = 0`; the sign of `compare(q1,q2)` is the negation of the
sign of `compare(q2,q1)`; `compare` is transitive on the negative side;
and it always returns an integer (negative, zero or positive), never
raising — the model is a total function into `Int`. -/
theorem C2_compare_strict_total_order (a b c : p4est_quadrant_t)
    (ha : p4est_quadrant_is_valid a) (hb : p4est_quadrant_is_valid b)
    (hc : p4est_quadrant_is_valid c) :
    p4est_quadrant_compare a a = 0 ∧
    (p4est_quadrant_compare a b).sign = -(p4est_quadrant_compare b a).sign ∧
    (p4est_quadrant_compare a b < 0 → p4est_quadrant_compare b c < 0 →
      p4est_quadrant_compare a c < 0) := by
  unfold p4est_quadrant_compare
  refine ⟨by simp, ?_, ?_⟩
  · rcases Nat.lt_trichotomy (morton_key a) (morton_key b) with h | h | h
    · rw [if_pos h, if_neg (by omega), if_pos h]
      simp
    · rw [if_neg (by omega), if_neg (by omega), if_neg (by omega),
        if_neg (by omega)]
      rw [show (b.level : Int) - a.level = -((a.level : Int) - b.level) by ring,
        Int.sign_neg, neg_neg]
    · rw [if_neg (by omega), if_pos h, if_pos h]
      simp
  · intro h1 h2
    split_ifs at h1 h2 ⊢ <;> omega

/-- C2 witness at three concrete valid quadrants. -/
theorem C2_compare_strict_total_order_witness :
    p4est_quadrant_compare ⟨0, 0, 1, 0, 0⟩ ⟨0, 0, 1, 0, 0⟩ = 0 ∧
    (p4est_quadrant_compare ⟨0, 0, 1, 0, 0⟩ ⟨2 ^ 29, 0, 1, 0, 0⟩).sign =
      -(p4est_quadrant_compare ⟨2 ^ 29, 0, 1, 0, 0⟩ ⟨0, 0, 1, 0, 0⟩).sign ∧
    (p4est_quadrant_compare ⟨0, 0, 1, 0, 0⟩ ⟨2 ^ 29, 0, 1, 0, 0⟩ < 0 →
      p4est_quadrant_compare ⟨2 ^ 29, 0, 1, 0, 0⟩ ⟨2 ^ 29, 2 ^ 29, 1, 0, 0⟩ < 0 →
      p4est_quadrant_compare ⟨0, 0, 1, 0, 0⟩ ⟨2 ^ 29, 2 ^ 29, 1, 0, 0⟩ < 0) :=
  C2_compare_strict_total_order ⟨0, 0, 1, 0, 0⟩ ⟨2 ^ 29, 0, 1, 0, 0⟩
    ⟨2 ^ 29, 2 ^ 29, 1, 0, 0⟩ (by decide) (by decide) (by decide)

/-! ## Claim C8: hash range and compatibility with equality -/

/-- C8: `hash` is a deterministic function of coordinates and level, its
result lies in `[0, 2^30)`, and Morton-equal quadrants (piggyback fields
ignored) hash equal. -/
theorem C8_hash_range_and_equal (v v1 v2 : p4est_quadrant_t)
    (h : p4est_quadrant_is_equal v1 v2) :
    p4est_quadrant_hash v < 2 ^ 30 ∧
    p4est_quadrant_hash v1 = p4est_quadrant_hash v2 := by
  constructor
  · exact Nat.mod_lt _ (by norm_num)
  · obtain ⟨hl, hx, hy⟩ := h
    unfold p4est_quadrant_hash morton_key
    rw [hl, hx, hy]

/-- C8 witness: two quadrants that agree geometrically but differ in both
piggyback fields hash equal, and a hash value is below `2^30`. -/
theorem C8_hash_range_and_equal_witness :
    p4est_quadrant_hash ⟨2 ^ 28, 0, 2, 0, 0⟩ < 2 ^ 30 ∧
    p4est_quadrant_hash ⟨2 ^ 29, 0, 1, 3, 4⟩ =
      p4est_quadrant_hash ⟨2 ^ 29, 0, 1, 5, 6⟩ :=
  C8_hash_range_and_equal ⟨2 ^ 28, 0, 2, 0, 0⟩ ⟨2 ^ 29, 0, 1, 3, 4⟩
    ⟨2 ^ 29, 0, 1, 5, 6⟩ (by decide)

/-! ## Claim C9: frame condition on destination quadrants -/

/-- C9: every construction operation writing a caller-supplied destination
(`parent`, `sibling`, `children`, `nearest_common_ancestor`, `set_morton`)
writes only level and coordinates and leaves the destination's piggyback
fields (`which_tree`, `user_data`) unchanged. -/
theorem C9_piggyback_frame (q q1 q2 r c0 c1 c2 c3 : p4est_quadrant_t)
    (sibling_id level lid : Nat) :
    ((p4est_quadrant_parent q r).which_tree = r.which_tree ∧
      (p4est_quadrant_parent q r).user_data = r.user_data) ∧
    ((p4est_quadrant_sibling q r sibling_id).which_tree = r.which_tree ∧
      (p4est_quadrant_sibling q r sibling_id).user_data = r.user_data) ∧
    ((p4est_quadrant_children q c0 c1 c2 c3).1.which_tree = c0.which_tree ∧
      (p4est_quadrant_children q c0 c1 c2 c3).1.user_data = c0.user_data ∧
      (p4est_quadrant_children q c0 c1 c2 c3).2.1.which_tree = c1.which_tree ∧
      (p4est_quadrant_children q c0 c1 c2 c3).2.1.user_data = c1.user_data ∧
      (p4est_quadrant_children q c0 c1 c2 c3).2.2.1.which_tree = c2.which_tree ∧
      (p4est_quadrant_children q c0 c1 c2 c3).2.2.1.user_data = c2.user_data ∧
      (p4est_quadrant_children q c0 c1 c2 c3).2.2.2.which_tree = c3.which_tree ∧
      (p4est_quadrant_children q c0 c1 c2 c3).2.2.2.user_data = c3.user_data) ∧
    ((p4est_nearest_common_ancestor q1 q2 r).which_tree = r.which_tree ∧
      (p4est_nearest_common_ancestor q1 q2 r).user_data = r.user_data) ∧
    ((p4est_quadrant_set_morton r level lid).which_tree = r.which_tree ∧
      (p4est_quadrant_set_morton r level lid).user_data = r.user_data) :=
  ⟨⟨rfl, rfl⟩, ⟨rfl, rfl⟩, ⟨rfl, rfl, rfl, rfl, rfl, rfl, rfl, rfl⟩,
    ⟨rfl, rfl⟩, ⟨rfl, rfl⟩⟩

/-! ## Claim C10: descendants at the quadrant's own level -/

/-- C10: for a valid quadrant `q`, the first descendant of `q` at level
`q.level` equals `q`, and so does the last descendant at level `q.level`
(Morton equality; the destination's piggyback fields are its own). -/
theorem C10_descendent_at_own_level (q fd ld : p4est_quadrant_t)
    (hq : p4est_quadrant_is_valid q) :
    p4est_quadrant_is_equal (p4est_quadrant_first_descendent q fd q.level) q ∧
    p4est_quadrant_is_equal (p4est_quadrant_last_descendent q ld q.level) q := by
  constructor
  · exact ⟨rfl, rfl, rfl⟩
  · refine ⟨rfl, ?_, ?_⟩ <;>
      simp [p4est_quadrant_last_descendent]

/-- C10 witness at a concrete valid quadrant. -/
theorem C10_descendent_at_own_level_witness :
    p4est_quadrant_is_equal
      (p4est_quadrant_first_descendent ⟨2 ^ 28, 0, 2, 1, 2⟩ ⟨9, 9, 9, 9, 9⟩ 2)
      ⟨2 ^ 28, 0, 2, 1, 2⟩ ∧
    p4est_quadrant_is_equal
      (p4est_quadrant_last_descendent ⟨2 ^ 28, 0, 2, 1, 2⟩ ⟨9, 9, 9, 9, 9⟩ 2)
      ⟨2 ^ 28, 0, 2, 1, 2⟩ :=
  C10_descendent_at_own_level ⟨2 ^ 28, 0, 2, 1, 2⟩ ⟨9, 9, 9, 9, 9⟩ ⟨9, 9, 9, 9, 9⟩
    (by decide)

/-! ## Bridging valid integer coordinates to their natural bit strings -/

theorem trunc_as_nat (L : Nat) (x : Int) (h0 : 0 ≤ x) :
    ((x.toNat / 2 ^ (P4EST_MAXLEVEL - L) : Nat) : Int) * qlen L = qtrunc L x := by
  have ha : x = ((x.toNat : Nat) : Int) := (Int.toNat_of_nonneg h0).symm
  unfold qtrunc
  rw [qlen_cast]
  conv_rhs => rw [ha]
  rw [← Int.natCast_div]
  ring

theorem coord_div_lt (L : Nat) (x : Int) (hL : L ≤ P4EST_MAXLEVEL)
    (hlt : x < 2 ^ P4EST_MAXLEVEL) :
    x.toNat / 2 ^ (P4EST_MAXLEVEL - L) < 2 ^ L := by
  have h1 : x.toNat < 2 ^ P4EST_MAXLEVEL := by
    rcases le_or_lt 0 x with h | h
    · exact (Int.toNat_lt h).mpr (by exact_mod_cast hlt)
    · rw [Int.toNat_of_nonpos h.le]
      positivity
  rw [Nat.div_lt_iff_lt_mul (by positivity : 0 < 2 ^ (P4EST_MAXLEVEL - L))]
  calc x.toNat < 2 ^ P4EST_MAXLEVEL := h1
    _ = 2 ^ L * 2 ^ (P4EST_MAXLEVEL - L) := by
        rw [← pow_add]
        congr 1
        omega

/-! ## Claim C1: round-trip law of Morton linear indexing -/

/-- C1: for every valid quadrant `q` and level `L ≤ q.level` (hence
`L ≤ MAXLEVEL`), `set_morton` at level `L` applied to `linear_id(q, L)`
produces the quadrant of level `L` whose coordinates are `q`'s truncated to
level `L` (address bits below `L`'s resolution cleared, piggyback fields of
the destination untouched); conversely `linear_id` recovers every id below
`4 ^ L` from the quadrant `set_morton` builds, so the two maps are mutually
inverse at each fixed level. -/
theorem C1_linear_id_set_morton_roundtrip (q : p4est_quadrant_t) (L : Nat)
    (hq : p4est_quadrant_is_valid q) (hL : L ≤ q.level) :
    p4est_quadrant_set_morton q L (p4est_quadrant_linear_id q L) =
      ⟨qtrunc L q.x, qtrunc L q.y, L, q.which_tree, q.user_data⟩ ∧
    ∀ lid : Nat, lid < 4 ^ L →
      p4est_quadrant_linear_id (p4est_quadrant_set_morton q L lid) L = lid := by
  obtain ⟨⟨hx0, hx1, hy0, hy1⟩, hlm, hax, hay⟩ := hq
  have hLM : L ≤ P4EST_MAXLEVEL := le_trans hL hlm
  constructor
  · unfold p4est_quadrant_set_morton p4est_quadrant_linear_id
    have hdx : deinterleaveX L (interleave L
        (q.x.toNat / 2 ^ (P4EST_MAXLEVEL - L)) (q.y.toNat / 2 ^ (P4EST_MAXLEVEL - L))) =
        q.x.toNat / 2 ^ (P4EST_MAXLEVEL - L) := by
      rw [deinterleaveX_interleave]
      exact Nat.mod_eq_of_lt (coord_div_lt L q.x hLM hx1)
    have hdy : deinterleaveY L (interleave L
        (q.x.toNat / 2 ^ (P4EST_MAXLEVEL - L)) (q.y.toNat / 2 ^ (P4EST_MAXLEVEL - L))) =
        q.y.toNat / 2 ^ (P4EST_MAXLEVEL - L) := by
      rw [deinterleaveY_interleave]
      exact Nat.mod_eq_of_lt (coord_div_lt L q.y hLM hy1)
    rw [hdx, hdy]
    simp only [p4est_quadrant_t.mk.injEq]
    refine ⟨trunc_as_nat L q.x hx0, trunc_as_nat L q.y hy0, ?_, ?_⟩ <;> trivial
  · intro lid hlid
    unfold p4est_quadrant_linear_id p4est_quadrant_set_morton
    have hx : ((deinterleaveX L lid : Int) * qlen L).toNat /
        2 ^ (P4EST_MAXLEVEL - L) = deinterleaveX L lid := by
      rw [qlen_cast, ← Nat.cast_mul, Int.toNat_natCast]
      exact Nat.mul_div_cancel _ (by positivity)
    have hy : ((deinterleaveY L lid : Int) * qlen L).toNat /
        2 ^ (P4EST_MAXLEVEL - L) = deinterleaveY L lid := by
      rw [qlen_cast, ← Nat.cast_mul, Int.toNat_natCast]
      exact Nat.mul_div_cancel _ (by positivity)
    show interleave L (((deinterleaveX L lid : Int) * qlen L).toNat /
        2 ^ (P4EST_MAXLEVEL - L)) (((deinterleaveY L lid : Int) * qlen L).toNat /
        2 ^ (P4EST_MAXLEVEL - L)) = lid
    rw [hx, hy, interleave_deinterleave]
    exact Nat.mod_eq_of_lt hlid

/-- C1 witness at the spec's concrete scenario scaled to `MAXLEVEL = 30`:
the level-2 quadrant at coordinates `(2^29 + 2^28, 2^28)` truncated to
level 1, and the inverse direction at id 2. -/
theorem C1_linear_id_set_morton_roundtrip_witness :
    (p4est_quadrant_set_morton ⟨2 ^ 29 + 2 ^ 28, 2 ^ 28, 2, 5, 6⟩ 1
        (p4est_quadrant_linear_id ⟨2 ^ 29 + 2 ^ 28, 2 ^ 28, 2, 5, 6⟩ 1) =
      ⟨qtrunc 1 (2 ^ 29 + 2 ^ 28), qtrunc 1 (2 ^ 28), 1, 5, 6⟩) ∧
    p4est_quadrant_linear_id
      (p4est_quadrant_set_morton ⟨2 ^ 29 + 2 ^ 28, 2 ^ 28, 2, 5, 6⟩ 1 2) 1 = 2 :=
  ⟨(C1_linear_id_set_morton_roundtrip ⟨2 ^ 29 + 2 ^ 28, 2 ^ 28, 2, 5, 6⟩ 1
      (by decide) (by decide)).1,
   (C1_linear_id_set_morton_roundtrip ⟨2 ^ 29 + 2 ^ 28, 2 ^ 28, 2, 5, 6⟩ 1
      (by decide) (by decide)).2 2 (by decide)⟩

/-! ## Child-bit decomposition of aligned coordinates -/

theorem coord_decomp (l : Nat) (x : Int) (h1 : 1 ≤ l) (h2 : l ≤ P4EST_MAXLEVEL)
    (hal : x % qlen l = 0) :
    x = qtrunc (l - 1) x + x / qlen l % 2 * qlen l := by
  have hdvd : qlen l ∣ x := Int.dvd_iff_emod_eq_zero.mpr hal
  obtain ⟨m, rfl⟩ := hdvd
  have hne : qlen l ≠ 0 := ne_of_gt (qlen_pos l)
  have hm : qlen l * m / qlen l = m := Int.mul_ediv_cancel_left m hne
  have hmod : qlen l * m % qlen (l - 1) = qlen l * (m % 2) := by
    rw [qlen_pred l h1 h2, mul_comm 2 (qlen l)]
    exact Int.mul_emod_mul_of_pos m 2 (qlen_pos l)
  rw [qtrunc_eq_sub_emod, hmod, hm]
  ring

theorem child_id_lt_four (q : p4est_quadrant_t) :
    p4est_quadrant_child_id q < 4 := by
  unfold p4est_quadrant_child_id
  have hx : q.x / qlen q.level % 2 < 2 := Int.emod_lt_of_pos _ (by norm_num)
  have hy : q.y / qlen q.level % 2 < 2 := Int.emod_lt_of_pos _ (by norm_num)
  omega

/-! ## Claim C4: the unique sibling id reproducing a quadrant -/

/-- C4 counterexample: as literally stated the claim fails — for the valid
level-1 quadrant at `(2^29, 2^29)`, `sibling(parent(q), r, sibling_id)`
produces a quadrant at the parent's level (0), so no `sibling_id` in
`[0,4)` reproduces `q`, contradicting "exactly one". -/
theorem C4_counterexample :
    p4est_quadrant_is_valid ⟨2 ^ 29, 2 ^ 29, 1, 0, 0⟩ ∧
    ¬p4est_quadrant_is_equal
      (p4est_quadrant_sibling
        (p4est_quadrant_parent ⟨2 ^ 29, 2 ^ 29, 1, 0, 0⟩ ⟨2 ^ 29, 2 ^ 29, 1, 0, 0⟩)
        ⟨2 ^ 29, 2 ^ 29, 1, 0, 0⟩ 0) ⟨2 ^ 29, 2 ^ 29, 1, 0, 0⟩ ∧
    ¬p4est_quadrant_is_equal
      (p4est_quadrant_sibling
        (p4est_quadrant_parent ⟨2 ^ 29, 2 ^ 29, 1, 0, 0⟩ ⟨2 ^ 29, 2 ^ 29, 1, 0, 0⟩)
        ⟨2 ^ 29, 2 ^ 29, 1, 0, 0⟩ 1) ⟨2 ^ 29, 2 ^ 29, 1, 0, 0⟩ ∧
    ¬p4est_quadrant_is_equal
      (p4est_quadrant_sibling
        (p4est_quadrant_parent ⟨2 ^ 29, 2 ^ 29, 1, 0, 0⟩ ⟨2 ^ 29, 2 ^ 29, 1, 0, 0⟩)
        ⟨2 ^ 29, 2 ^ 29, 1, 0, 0⟩ 2) ⟨2 ^ 29, 2 ^ 29, 1, 0, 0⟩ ∧
    ¬p4est_quadrant_is_equal
      (p4est_quadrant_sibling
        (p4est_quadrant_parent ⟨2 ^ 29, 2 ^ 29, 1, 0, 0⟩ ⟨2 ^ 29, 2 ^ 29, 1, 0, 0⟩)
        ⟨2 ^ 29, 2 ^ 29, 1, 0, 0⟩ 3) ⟨2 ^ 29, 2 ^ 29, 1, 0, 0⟩ := by
  decide

/-- C4 (amended): for every valid quadrant `q` of level at least 1, exactly
one `sibling_id` in `[0,4)` satisfies `sibling(q, r, sibling_id) == q`
(`sibling(q, ·, i)` being the child number `i` of `q`'s parent, which is
what "sibling(parent(q), ...)" can only have meant given that `sibling`
keeps its first argument's level), and that unique id is `child_id(q)`. -/
theorem C4_sibling_unique (q r : p4est_quadrant_t)
    (hq : p4est_quadrant_is_valid q) (hl : 1 ≤ q.level) :
    p4est_quadrant_child_id q < 4 ∧
    ∀ i : Nat, i < 4 →
      (p4est_quadrant_is_equal (p4est_quadrant_sibling q r i) q ↔
        i = p4est_quadrant_child_id q) := by
  obtain ⟨-, hlm, halx, haly⟩ := hq
  refine ⟨child_id_lt_four q, ?_⟩
  have hpos : 0 < qlen q.level := qlen_pos _
  have hdx := coord_decomp q.level q.x hl hlm halx
  have hdy := coord_decomp q.level q.y hl hlm haly
  have hbx := Int.emod_two_eq (q.x / qlen q.level)
  have hby := Int.emod_two_eq (q.y / qlen q.level)
  intro i hi
  simp only [p4est_quadrant_sibling, p4est_quadrant_is_equal,
    p4est_quadrant_child_id]
  interval_cases i <;>
    rcases hbx with hbx | hbx <;> rcases hby with hby | hby <;>
    rw [hbx] at hdx <;> rw [hby] at hdy <;> rw [hbx, hby] <;>
    simp <;> omega

/-- C4 witness for the amended theorem at the concrete quadrant of the
counterexample, whose child id is 3. -/
theorem C4_sibling_unique_witness :
    p4est_quadrant_child_id ⟨2 ^ 29, 2 ^ 29, 1, 0, 0⟩ < 4 ∧
    ∀ i : Nat, i < 4 →
      (p4est_quadrant_is_equal
          (p4est_quadrant_sibling ⟨2 ^ 29, 2 ^ 29, 1, 0, 0⟩ ⟨9, 9, 9, 9, 9⟩ i)
          ⟨2 ^ 29, 2 ^ 29, 1, 0, 0⟩ ↔
        i = p4est_quadrant_child_id ⟨2 ^ 29, 2 ^ 29, 1, 0, 0⟩) :=
  C4_sibling_unique ⟨2 ^ 29, 2 ^ 29, 1, 0, 0⟩ ⟨9, 9, 9, 9, 9⟩ (by decide)
    (by decide)

theorem qtrunc_emod_self (l : Nat) (x : Int) : qtrunc l x % qlen l = 0 :=
  Int.mul_emod_right _ _

theorem child_coord_spec (l : Nat) (t xc b : Int) (h1 : 1 ≤ l)
    (h2 : l ≤ P4EST_MAXLEVEL) (ht : t % qlen (l - 1) = 0) (hb : b = 0 ∨ b = 1)
    (hx : xc = t + b * qlen l) :
    qtrunc (l - 1) xc = t ∧ xc / qlen l % 2 = b ∧ xc % qlen l = 0 := by
  have hH : qlen (l - 1) = 2 * qlen l := qlen_pred l h1 h2
  have hpos : 0 < qlen l := qlen_pos l
  obtain ⟨s, hs⟩ : qlen (l - 1) ∣ t := Int.dvd_iff_emod_eq_zero.mpr ht
  have hxc : xc = qlen l * (2 * s + b) := by
    rw [hx, hs, hH]; ring
  refine ⟨?_, ?_, ?_⟩
  · rw [qtrunc_eq_sub_emod, hH]
    have hmod : xc % (2 * qlen l) = b * qlen l := by
      have : xc = b * qlen l + (2 * qlen l) * s := by rw [hx, hs, hH]; ring
      rw [this, Int.add_mul_emod_self_left]
      rcases hb with rfl | rfl
      · simp
      · rw [one_mul]
        exact Int.emod_eq_of_lt (le_of_lt hpos) (by linarith)
    rw [hmod, hx]
    ring
  · rw [hxc, Int.mul_ediv_cancel_left _ (ne_of_gt hpos)]
    have hcomm : 2 * s + b = b + s * 2 := by ring
    rw [hcomm, Int.add_mul_emod_self]
    rcases hb with rfl | rfl <;> norm_num
  · rw [hxc]
    exact Int.mul_emod_right _ _

theorem trunc_bounds (l : Nat) (x : Int) (h1 : 1 ≤ l) (h2 : l ≤ P4EST_MAXLEVEL)
    (h0 : 0 ≤ x) (hlt : x < 2 ^ P4EST_MAXLEVEL) :
    0 ≤ qtrunc (l - 1) x ∧
    qtrunc (l - 1) x + 2 * qlen l ≤ 2 ^ P4EST_MAXLEVEL ∧
    qtrunc (l - 1) x % qlen (l - 1) = 0 := by
  have hH : qlen (l - 1) = 2 * qlen l := qlen_pred l h1 h2
  have hHpos : 0 < qlen (l - 1) := qlen_pos _
  have hnn : 0 ≤ qtrunc (l - 1) x :=
    mul_nonneg (le_of_lt hHpos) (Int.ediv_nonneg h0 (le_of_lt hHpos))
  have hle : qtrunc (l - 1) x ≤ x := by
    rw [qtrunc_eq_sub_emod]
    have := Int.emod_nonneg x (ne_of_gt hHpos)
    linarith
  have hsplit : (2 : Int) ^ P4EST_MAXLEVEL = qlen (l - 1) * 2 ^ (l - 1) := by
    unfold qlen
    rw [← pow_add]
    congr 1
    omega
  obtain ⟨s, hs⟩ : qlen (l - 1) ∣ qtrunc (l - 1) x := Dvd.intro _ rfl
  have hslt : s < 2 ^ (l - 1) := by
    have hup : qlen (l - 1) * s < qlen (l - 1) * 2 ^ (l - 1) := by
      rw [← hs, ← hsplit]
      exact lt_of_le_of_lt hle hlt
    exact lt_of_mul_lt_mul_left hup (le_of_lt hHpos)
  refine ⟨hnn, ?_, qtrunc_emod_self _ _⟩
  have : qlen (l - 1) * (s + 1) ≤ qlen (l - 1) * 2 ^ (l - 1) := by
    apply mul_le_mul_of_nonneg_left _ (le_of_lt hHpos)
    omega
  calc qtrunc (l - 1) x + 2 * qlen l = qlen (l - 1) * (s + 1) := by
        rw [hs, hH]; ring
    _ ≤ qlen (l - 1) * 2 ^ (l - 1) := this
    _ = 2 ^ P4EST_MAXLEVEL := hsplit.symm

theorem bits_from_child_id (c : p4est_quadrant_t) (n : Nat)
    (h : p4est_quadrant_child_id c = n) (hn : n < 4) :
    c.x / qlen c.level % 2 = ((n % 2 : Nat) : Int) ∧
    c.y / qlen c.level % 2 = ((n / 2 : Nat) : Int) := by
  unfold p4est_quadrant_child_id at h
  have hx0 : 0 ≤ c.x / qlen c.level % 2 := Int.emod_nonneg _ (by norm_num)
  have hx1 : c.x / qlen c.level % 2 < 2 := Int.emod_lt_of_pos _ (by norm_num)
  have hy0 : 0 ≤ c.y / qlen c.level % 2 := Int.emod_nonneg _ (by norm_num)
  have hy1 : c.y / qlen c.level % 2 < 2 := Int.emod_lt_of_pos _ (by norm_num)
  omega

theorem child_id_from_bits (c : p4est_quadrant_t) (bx by2 : Int)
    (hx : c.x / qlen c.level % 2 = bx) (hy : c.y / qlen c.level % 2 = by2) :
    (p4est_quadrant_child_id c : Int) = bx + 2 * by2 := by
  unfold p4est_quadrant_child_id
  have hx0 : 0 ≤ c.x / qlen c.level % 2 := Int.emod_nonneg _ (by norm_num)
  have hy0 : 0 ≤ c.y / qlen c.level % 2 := Int.emod_nonneg _ (by norm_num)
  push_cast
  omega

theorem slot_iff (l : Nat) (x0 y0 : Int) (c : p4est_quadrant_t) (bx by2 : Int)
    (h1 : 1 ≤ l) (h2 : l ≤ P4EST_MAXLEVEL)
    (hx00 : 0 ≤ x0) (hx01 : x0 < 2 ^ P4EST_MAXLEVEL)
    (hy00 : 0 ≤ y0) (hy01 : y0 < 2 ^ P4EST_MAXLEVEL)
    (hbx : bx = 0 ∨ bx = 1) (hby : by2 = 0 ∨ by2 = 1) :
    (l = c.level ∧ qtrunc (l - 1) x0 + bx * qlen l = c.x ∧
      qtrunc (l - 1) y0 + by2 * qlen l = c.y) ↔
    (p4est_quadrant_is_valid c ∧ c.level = l ∧
      qtrunc (l - 1) c.x = qtrunc (l - 1) x0 ∧
      qtrunc (l - 1) c.y = qtrunc (l - 1) y0 ∧
      c.x / qlen c.level % 2 = bx ∧ c.y / qlen c.level % 2 = by2) := by
  have hpos : 0 < qlen l := qlen_pos l
  constructor
  · rintro ⟨hlev, hx, hy⟩
    have hxs := child_coord_spec l (qtrunc (l - 1) x0) c.x bx h1 h2
      (qtrunc_emod_self _ _) hbx hx.symm
    have hys := child_coord_spec l (qtrunc (l - 1) y0) c.y by2 h1 h2
      (qtrunc_emod_self _ _) hby hy.symm
    have htbx := trunc_bounds l x0 h1 h2 hx00 hx01
    have htby := trunc_bounds l y0 h1 h2 hy00 hy01
    have hbxh : 0 ≤ bx * qlen l ∧ bx * qlen l ≤ qlen l := by
      rcases hbx with rfl | rfl <;> constructor <;> simp <;> linarith
    have hbyh : 0 ≤ by2 * qlen l ∧ by2 * qlen l ≤ qlen l := by
      rcases hby with rfl | rfl <;> constructor <;> simp <;> linarith
    refine ⟨⟨⟨?_, ?_, ?_, ?_⟩, ?_, ?_, ?_⟩, hlev.symm, hxs.1, hys.1, ?_, ?_⟩
    · rw [← hx]; linarith [htbx.1, hbxh.1]
    · rw [← hx]; linarith [htbx.2.1, hbxh.2, hpos]
    · rw [← hy]; linarith [htby.1, hbyh.1]
    · rw [← hy]; linarith [htby.2.1, hbyh.2, hpos]
    · rw [← hlev]; exact h2
    · rw [← hlev]; exact hxs.2.2
    · rw [← hlev]; exact hys.2.2
    · rw [← hlev]; exact hxs.2.1
    · rw [← hlev]; exact hys.2.1
  · rintro ⟨⟨hin, hclm, hacx, hacy⟩, hclev, htx, hty, hbitx, hbity⟩
    subst hclev
    have hdx := coord_decomp c.level c.x h1 h2 hacx
    have hdy := coord_decomp c.level c.y h1 h2 hacy
    rw [htx, hbitx] at hdx
    rw [hty, hbity] at hdy
    exact ⟨rfl, hdx.symm, hdy.symm⟩

/-! ## Claim C5: is_family characterizes children-of-parent in order -/

/-- C5: `is_family(c0,c1,c2,c3)` holds iff the four quadrants are exactly,
in order 0..3, the four children written by `children` applied to the
parent of `c0` (Morton equality against the four outputs, for arbitrary
destination quadrants), for valid `c0` of level at least 1. -/
theorem C5_is_family_iff_children_of_parent
    (c0 c1 c2 c3 p d0 d1 d2 d3 : p4est_quadrant_t)
    (h0 : p4est_quadrant_is_valid c0) (hl : 1 ≤ c0.level) :
    p4est_quadrant_is_family c0 c1 c2 c3 ↔
      (p4est_quadrant_is_equal
          (p4est_quadrant_children (p4est_quadrant_parent c0 p) d0 d1 d2 d3).1 c0 ∧
        p4est_quadrant_is_equal
          (p4est_quadrant_children (p4est_quadrant_parent c0 p) d0 d1 d2 d3).2.1 c1 ∧
        p4est_quadrant_is_equal
          (p4est_quadrant_children (p4est_quadrant_parent c0 p) d0 d1 d2 d3).2.2.1 c2 ∧
        p4est_quadrant_is_equal
          (p4est_quadrant_children (p4est_quadrant_parent c0 p) d0 d1 d2 d3).2.2.2 c3) := by
  have hcopy := h0
  obtain ⟨⟨hx0, hx1, hy0, hy1⟩, hlm, hax, hay⟩ := hcopy
  have hc : c0.level - 1 + 1 = c0.level := by omega
  have H0 := slot_iff c0.level c0.x c0.y c0 0 0 hl hlm hx0 hx1 hy0 hy1
    (Or.inl rfl) (Or.inl rfl)
  have H1 := slot_iff c0.level c0.x c0.y c1 1 0 hl hlm hx0 hx1 hy0 hy1
    (Or.inr rfl) (Or.inl rfl)
  have H2 := slot_iff c0.level c0.x c0.y c2 0 1 hl hlm hx0 hx1 hy0 hy1
    (Or.inl rfl) (Or.inr rfl)
  have H3 := slot_iff c0.level c0.x c0.y c3 1 1 hl hlm hx0 hx1 hy0 hy1
    (Or.inr rfl) (Or.inr rfl)
  simp only [p4est_quadrant_children, p4est_quadrant_parent,
    p4est_quadrant_is_equal, p4est_quadrant_is_family, hc]
  constructor
  · rintro ⟨-, hv1, hv2, hv3, -, hl1, hl2, hl3, ht1x, ht1y, ht2x, ht2y,
      ht3x, ht3y, hid0, hid1, hid2, hid3⟩
    have hb0 := bits_from_child_id c0 0 hid0 (by omega)
    have hb1 := bits_from_child_id c1 1 hid1 (by omega)
    have hb2 := bits_from_child_id c2 2 hid2 (by omega)
    have hb3 := bits_from_child_id c3 3 hid3 (by omega)
    have s0 := H0.mpr ⟨h0, rfl, rfl, rfl, by omega, by omega⟩
    have s1 := H1.mpr ⟨hv1, hl1, ht1x, ht1y, by omega, by omega⟩
    have s2 := H2.mpr ⟨hv2, hl2, ht2x, ht2y, by omega, by omega⟩
    have s3 := H3.mpr ⟨hv3, hl3, ht3x, ht3y, by omega, by omega⟩
    refine ⟨⟨trivial, ?_, ?_⟩, ⟨s1.1, ?_, ?_⟩, ⟨s2.1, ?_, ?_⟩, ⟨s3.1, ?_, ?_⟩⟩ <;>
      linarith [s0.2.1, s0.2.2, s1.2.1, s1.2.2, s2.2.1, s2.2.2, s3.2.1, s3.2.2]
  · rintro ⟨⟨he0l, he0x, he0y⟩, ⟨he1l, he1x, he1y⟩, ⟨he2l, he2x, he2y⟩,
      ⟨he3l, he3x, he3y⟩⟩
    have s0 := H0.mp ⟨rfl, by linarith, by linarith⟩
    have s1 := H1.mp ⟨he1l, by linarith, by linarith⟩
    have s2 := H2.mp ⟨he2l, by linarith, by linarith⟩
    have s3 := H3.mp ⟨he3l, by linarith, by linarith⟩
    have hcid0 := child_id_from_bits c0 0 0 s0.2.2.2.2.1 s0.2.2.2.2.2
    have hcid1 := child_id_from_bits c1 1 0 s1.2.2.2.2.1 s1.2.2.2.2.2
    have hcid2 := child_id_from_bits c2 0 1 s2.2.2.2.2.1 s2.2.2.2.2.2
    have hcid3 := child_id_from_bits c3 1 1 s3.2.2.2.2.1 s3.2.2.2.2.2
    exact ⟨h0, s1.1, s2.1, s3.1, hl, s1.2.1, s2.2.1, s3.2.1,
      s1.2.2.1, s1.2.2.2.1, s2.2.2.1, s2.2.2.2.1, s3.2.2.1, s3.2.2.2.1,
      by omega, by omega, by omega, by omega⟩

/-- C5 witness at the four level-1 children of the root. -/
theorem C5_is_family_iff_children_of_parent_witness :
    p4est_quadrant_is_family ⟨0, 0, 1, 0, 0⟩ ⟨2 ^ 29, 0, 1, 0, 0⟩
      ⟨0, 2 ^ 29, 1, 0, 0⟩ ⟨2 ^ 29, 2 ^ 29, 1, 0, 0⟩ ↔
      (p4est_quadrant_is_equal
          (p4est_quadrant_children
            (p4est_quadrant_parent ⟨0, 0, 1, 0, 0⟩ ⟨8, 8, 8, 8, 8⟩)
            ⟨9, 9, 9, 9, 9⟩ ⟨9, 9, 9, 9, 9⟩ ⟨9, 9, 9, 9, 9⟩ ⟨9, 9, 9, 9, 9⟩).1
          ⟨0, 0, 1, 0, 0⟩ ∧
        p4est_quadrant_is_equal
          (p4est_quadrant_children
            (p4est_quadrant_parent ⟨0, 0, 1, 0, 0⟩ ⟨8, 8, 8, 8, 8⟩)
            ⟨9, 9, 9, 9, 9⟩ ⟨9, 9, 9, 9, 9⟩ ⟨9, 9, 9, 9, 9⟩ ⟨9, 9, 9, 9, 9⟩).2.1
          ⟨2 ^ 29, 0, 1, 0, 0⟩ ∧
        p4est_quadrant_is_equal
          (p4est_quadrant_children
            (p4est_quadrant_parent ⟨0, 0, 1, 0, 0⟩ ⟨8, 8, 8, 8, 8⟩)
            ⟨9, 9, 9, 9, 9⟩ ⟨9, 9, 9, 9, 9⟩ ⟨9, 9, 9, 9, 9⟩ ⟨9, 9, 9, 9, 9⟩).2.2.1
          ⟨0, 2 ^ 29, 1, 0, 0⟩ ∧
        p4est_quadrant_is_equal
          (p4est_quadrant_children
            (p4est_quadrant_parent ⟨0, 0, 1, 0, 0⟩ ⟨8, 8, 8, 8, 8⟩)
            ⟨9, 9, 9, 9, 9⟩ ⟨9, 9, 9, 9, 9⟩ ⟨9, 9, 9, 9, 9⟩ ⟨9, 9, 9, 9, 9⟩).2.2.2
          ⟨2 ^ 29, 2 ^ 29, 1, 0, 0⟩) :=
  C5_is_family_iff_children_of_parent ⟨0, 0, 1, 0, 0⟩ ⟨2 ^ 29, 0, 1, 0, 0⟩
    ⟨0, 2 ^ 29, 1, 0, 0⟩ ⟨2 ^ 29, 2 ^ 29, 1, 0, 0⟩ ⟨8, 8, 8, 8, 8⟩
    ⟨9, 9, 9, 9, 9⟩ ⟨9, 9, 9, 9, 9⟩ ⟨9, 9, 9, 9, 9⟩ ⟨9, 9, 9, 9, 9⟩
    (by decide) (by decide)

/-! ## Fast versus descriptive predicate forms -/

theorem emod_zero_dvd_toNat (k : Nat) (x : Int) (h0 : 0 ≤ x)
    (h : x % ((2 ^ k : Nat) : Int) = 0) : 2 ^ k ∣ x.toNat := by
  have hdvd : ((2 ^ k : Nat) : Int) ∣ x := Int.dvd_iff_emod_eq_zero.mpr h
  rw [← Int.toNat_of_nonneg h0] at hdvd
  exact_mod_cast hdvd

theorem linear_id_at_max (q : p4est_quadrant_t) :
    p4est_quadrant_linear_id q P4EST_MAXLEVEL = morton_key q := by
  unfold p4est_quadrant_linear_id morton_key
  simp [Nat.sub_self]

theorem linear_id_first_desc (q d : p4est_quadrant_t) :
    p4est_quadrant_linear_id
      (p4est_quadrant_first_descendent q d P4EST_MAXLEVEL) P4EST_MAXLEVEL =
      morton_key q := by
  unfold p4est_quadrant_first_descendent p4est_quadrant_linear_id morton_key
  simp [Nat.sub_self]

theorem linear_id_last_desc (q : p4est_quadrant_t)
    (hq : p4est_quadrant_is_valid q) :
    p4est_quadrant_linear_id
      (p4est_quadrant_last_descendent q q P4EST_MAXLEVEL) P4EST_MAXLEVEL =
      morton_key q + (4 ^ (P4EST_MAXLEVEL - q.level) - 1) := by
  obtain ⟨⟨hx0, hx1, hy0, hy1⟩, hlm, hax, hay⟩ := hq
  have hone : (1 : Nat) ≤ 2 ^ (P4EST_MAXLEVEL - q.level) := Nat.one_le_two_pow
  have hoff : qlen q.level - qlen P4EST_MAXLEVEL =
      ((2 ^ (P4EST_MAXLEVEL - q.level) - 1 : Nat) : Int) := by
    rw [qlen_cast, qlen_cast, Nat.cast_sub hone]
    simp [Nat.sub_self]
  unfold p4est_quadrant_last_descendent p4est_quadrant_linear_id morton_key
  simp only [Nat.sub_self, pow_zero, Nat.div_one]
  rw [hoff, Int.toNat_add_nat hx0, Int.toNat_add_nat hy0]
  rw [interleave_add (P4EST_MAXLEVEL - q.level) P4EST_MAXLEVEL _ _ _ _ (by omega)
    (emod_zero_dvd_toNat _ _ hx0 (by rw [← qlen_cast]; exact hax))
    (emod_zero_dvd_toNat _ _ hy0 (by rw [← qlen_cast]; exact hay))
    (by omega) (by omega)]
  rw [interleave_ones (P4EST_MAXLEVEL - q.level) P4EST_MAXLEVEL (by omega)]

theorem morton_key_inj (v1 v2 : p4est_quadrant_t)
    (h1 : p4est_quadrant_is_valid v1) (h2 : p4est_quadrant_is_valid v2)
    (hk : morton_key v1 = morton_key v2) : v1.x = v2.x ∧ v1.y = v2.y := by
  obtain ⟨⟨a0, a1, b0, b1⟩, -, -, -⟩ := h1
  obtain ⟨⟨c0, c1, d0, d1⟩, -, -, -⟩ := h2
  have ha : v1.x.toNat < 2 ^ P4EST_MAXLEVEL := (Int.toNat_lt a0).mpr (by exact_mod_cast a1)
  have hb : v1.y.toNat < 2 ^ P4EST_MAXLEVEL := (Int.toNat_lt b0).mpr (by exact_mod_cast b1)
  have hc : v2.x.toNat < 2 ^ P4EST_MAXLEVEL := (Int.toNat_lt c0).mpr (by exact_mod_cast c1)
  have hd : v2.y.toNat < 2 ^ P4EST_MAXLEVEL := (Int.toNat_lt d0).mpr (by exact_mod_cast d1)
  unfold morton_key at hk
  have hx := congrArg (deinterleaveX P4EST_MAXLEVEL) hk
  have hy := congrArg (deinterleaveY P4EST_MAXLEVEL) hk
  rw [deinterleaveX_interleave, deinterleaveX_interleave] at hx
  rw [deinterleaveY_interleave, deinterleaveY_interleave] at hy
  rw [Nat.mod_eq_of_lt ha, Nat.mod_eq_of_lt hc] at hx
  rw [Nat.mod_eq_of_lt hb, Nat.mod_eq_of_lt hd] at hy
  omega

theorem is_sibling_iff_D (q1 q2 : p4est_quadrant_t) :
    p4est_quadrant_is_sibling q1 q2 ↔ p4est_quadrant_is_sibling_D q1 q2 := by
  unfold p4est_quadrant_is_sibling p4est_quadrant_is_sibling_D
    p4est_quadrant_parent p4est_quadrant_is_equal
  dsimp only
  constructor
  · rintro ⟨h1, hl, hx, hy, hne⟩
    refine ⟨?_, hl, h1, by omega, ?_, ?_⟩
    · rintro ⟨-, hxx, hyy⟩; exact hne ⟨hxx, hyy⟩
    · rw [← hl]; exact (qtrunc_eq_iff _ _ _).mpr hx
    · rw [← hl]; exact (qtrunc_eq_iff _ _ _).mpr hy
  · rintro ⟨hne, hl, h1, -, hx, hy⟩
    rw [← hl] at hx hy
    refine ⟨h1, hl, (qtrunc_eq_iff _ _ _).mp hx, (qtrunc_eq_iff _ _ _).mp hy, ?_⟩
    rintro ⟨hxx, hyy⟩; exact hne ⟨hl, hxx, hyy⟩

theorem is_parent_iff_D (q r : p4est_quadrant_t) :
    p4est_quadrant_is_parent q r ↔ p4est_quadrant_is_parent_D q r := by
  unfold p4est_quadrant_is_parent p4est_quadrant_is_parent_D
    p4est_quadrant_parent p4est_quadrant_is_equal
  dsimp only
  constructor
  · rintro ⟨hl, hx, hy⟩
    have hr1 : r.level - 1 = q.level := by omega
    rw [hr1]
    exact ⟨by omega, by omega, hx, hy⟩
  · rintro ⟨h1, hlv, hx, hy⟩
    have hr1 : r.level - 1 = q.level := by omega
    rw [hr1] at hx hy
    exact ⟨by omega, hx, hy⟩

theorem is_ancestor_iff_D (q r : p4est_quadrant_t)
    (hq : p4est_quadrant_is_valid q) :
    p4est_quadrant_is_ancestor q r ↔ p4est_quadrant_is_ancestor_D q r := by
  obtain ⟨-, -, hax, hay⟩ := hq
  have hne : qlen q.level ≠ 0 := ne_of_gt (qlen_pos _)
  unfold p4est_quadrant_is_ancestor p4est_quadrant_is_ancestor_D
    p4est_quadrant_is_equal
  constructor
  · rintro ⟨hlt, hx, hy⟩
    refine ⟨?_, hlt, ?_, ?_⟩
    · rintro ⟨hll, -, -⟩; omega
    · have h : qtrunc q.level r.x = qtrunc q.level q.x := by
        unfold qtrunc; rw [hx]
      rw [h, qtrunc_of_emod_zero _ _ hax]
    · have h : qtrunc q.level r.y = qtrunc q.level q.y := by
        unfold qtrunc; rw [hy]
      rw [h, qtrunc_of_emod_zero _ _ hay]
  · rintro ⟨-, hlt, hx, hy⟩
    refine ⟨hlt, ?_, ?_⟩
    · rw [hx]
      unfold qtrunc
      exact Int.mul_ediv_cancel_left _ hne
    · rw [hy]
      unfold qtrunc
      exact Int.mul_ediv_cancel_left _ hne

theorem is_next_iff_D (q r : p4est_quadrant_t)
    (hq : p4est_quadrant_is_valid q) :
    p4est_quadrant_is_next q r ↔ p4est_quadrant_is_next_D q r := by
  unfold p4est_quadrant_is_next p4est_quadrant_is_next_D
  rw [linear_id_last_desc q hq, linear_id_first_desc r r]
  have hone : (1 : Nat) ≤ 4 ^ (P4EST_MAXLEVEL - q.level) :=
    Nat.one_le_pow _ _ (by omega)
  omega

/-! ## Claim C3: fast/descriptive duality -/

/-- C3: on valid quadrant pairs (the domain on which the spec states the
predicates' preconditions), each bit-trick predicate agrees with its
descriptive reference counterpart: `is_sibling` with `is_sibling_D`,
`is_parent` with `is_parent_D`, `is_ancestor` with `is_ancestor_D`, and
`is_next` with `is_next_D`. -/
theorem C3_fast_descriptive_duality (a b : p4est_quadrant_t)
    (ha : p4est_quadrant_is_valid a) (hb : p4est_quadrant_is_valid b) :
    (p4est_quadrant_is_sibling a b ↔ p4est_quadrant_is_sibling_D a b) ∧
    (p4est_quadrant_is_parent a b ↔ p4est_quadrant_is_parent_D a b) ∧
    (p4est_quadrant_is_ancestor a b ↔ p4est_quadrant_is_ancestor_D a b) ∧
    (p4est_quadrant_is_next a b ↔ p4est_quadrant_is_next_D a b) :=
  ⟨is_sibling_iff_D a b, is_parent_iff_D a b, is_ancestor_iff_D a b ha,
    is_next_iff_D a b ha⟩

/-- C3 witness at a concrete valid pair: the root's child 0 at level 1 and
its level-2 descendant at `(2^28, 0)`. -/
theorem C3_fast_descriptive_duality_witness :
    (p4est_quadrant_is_sibling ⟨0, 0, 1, 0, 0⟩ ⟨2 ^ 28, 0, 2, 0, 0⟩ ↔
      p4est_quadrant_is_sibling_D ⟨0, 0, 1, 0, 0⟩ ⟨2 ^ 28, 0, 2, 0, 0⟩) ∧
    (p4est_quadrant_is_parent ⟨0, 0, 1, 0, 0⟩ ⟨2 ^ 28, 0, 2, 0, 0⟩ ↔
      p4est_quadrant_is_parent_D ⟨0, 0, 1, 0, 0⟩ ⟨2 ^ 28, 0, 2, 0, 0⟩) ∧
    (p4est_quadrant_is_ancestor ⟨0, 0, 1, 0, 0⟩ ⟨2 ^ 28, 0, 2, 0, 0⟩ ↔
      p4est_quadrant_is_ancestor_D ⟨0, 0, 1, 0, 0⟩ ⟨2 ^ 28, 0, 2, 0, 0⟩) ∧
    (p4est_quadrant_is_next ⟨0, 0, 1, 0, 0⟩ ⟨2 ^ 28, 0, 2, 0, 0⟩ ↔
      p4est_quadrant_is_next_D ⟨0, 0, 1, 0, 0⟩ ⟨2 ^ 28, 0, 2, 0, 0⟩) :=
  C3_fast_descriptive_duality ⟨0, 0, 1, 0, 0⟩ ⟨2 ^ 28, 0, 2, 0, 0⟩
    (by decide) (by decide)

/-! ## Claim C6: adjacency semantics and multiplicity of is_next -/

/-- C6: `is_next(q, r)` holds iff the last descendant of `q` at the deepest
level is adjacent (linear id plus one) to the first descendant of `r` at
that level; and for a fixed valid `q` there is at most one valid successor
`r` per level (Morton equality), while valid quadrants only have levels in
`[0, MAXLEVEL]` — so the number of possible nexts is between 0 and
`MAXLEVEL + 1`. -/
theorem C6_is_next_adjacency_and_uniqueness (q r r1 r2 : p4est_quadrant_t)
    (hq : p4est_quadrant_is_valid q) (hr : p4est_quadrant_is_valid r)
    (h1 : p4est_quadrant_is_valid r1) (h2 : p4est_quadrant_is_valid r2) :
    (p4est_quadrant_is_next q r ↔
      p4est_quadrant_linear_id
          (p4est_quadrant_last_descendent q q P4EST_MAXLEVEL) P4EST_MAXLEVEL + 1 =
        p4est_quadrant_linear_id
          (p4est_quadrant_first_descendent r r P4EST_MAXLEVEL) P4EST_MAXLEVEL) ∧
    (r1.level = r2.level → p4est_quadrant_is_next q r1 →
      p4est_quadrant_is_next q r2 → p4est_quadrant_is_equal r1 r2) ∧
    r.level ≤ P4EST_MAXLEVEL := by
  refine ⟨is_next_iff_D q r hq, ?_, hr.2.1⟩
  intro hlv hn1 hn2
  unfold p4est_quadrant_is_next at hn1 hn2
  have hk : morton_key r1 = morton_key r2 := by omega
  obtain ⟨hx, hy⟩ := morton_key_inj r1 r2 h1 h2 hk
  exact ⟨hlv, hx, hy⟩

/-- C6 witness at the spec's concrete sibling-successor scenario scaled to
`MAXLEVEL = 30`. -/
theorem C6_is_next_adjacency_and_uniqueness_witness :
    (p4est_quadrant_is_next ⟨0, 0, 2, 0, 0⟩ ⟨2 ^ 28, 0, 2, 0, 0⟩ ↔
      p4est_quadrant_linear_id
          (p4est_quadrant_last_descendent ⟨0, 0, 2, 0, 0⟩ ⟨0, 0, 2, 0, 0⟩
            P4EST_MAXLEVEL) P4EST_MAXLEVEL + 1 =
        p4est_quadrant_linear_id
          (p4est_quadrant_first_descendent ⟨2 ^ 28, 0, 2, 0, 0⟩
            ⟨2 ^ 28, 0, 2, 0, 0⟩ P4EST_MAXLEVEL) P4EST_MAXLEVEL) ∧
    (p4est_quadrant_t.level ⟨2 ^ 28, 0, 2, 0, 0⟩ =
        p4est_quadrant_t.level ⟨2 ^ 28, 0, 2, 0, 0⟩ →
      p4est_quadrant_is_next ⟨0, 0, 2, 0, 0⟩ ⟨2 ^ 28, 0, 2, 0, 0⟩ →
      p4est_quadrant_is_next ⟨0, 0, 2, 0, 0⟩ ⟨2 ^ 28, 0, 2, 0, 0⟩ →
      p4est_quadrant_is_equal ⟨2 ^ 28, 0, 2, 0, 0⟩ ⟨2 ^ 28, 0, 2, 0, 0⟩) ∧
    p4est_quadrant_t.level ⟨2 ^ 28, 0, 2, 0, 0⟩ ≤ P4EST_MAXLEVEL :=
  C6_is_next_adjacency_and_uniqueness ⟨0, 0, 2, 0, 0⟩ ⟨2 ^ 28, 0, 2, 0, 0⟩
    ⟨2 ^ 28, 0, 2, 0, 0⟩ ⟨2 ^ 28, 0, 2, 0, 0⟩
    (by decide) (by decide) (by decide) (by decide)
